import Mathlib

/-!
# Verification of the Hermes4ArXiv batch-analysis pipeline

A shallow embedding, in Lean 4, of the core algorithms of the repository's
two-stage batch analysis pipeline:

* the Stage-1 sliding-window chunking of `BatchCoordinator._run_stage1_ranking`
  (`src/ai/batch_coordinator.py`),
* the Stage-1 score collection / max-aggregation / score attachment and sort,
* the Stage-2 promotion filter of `BatchCoordinator._run_stage2_deep_analysis`,
* the batch-response de-multiplexing parser `BatchCoordinator._parse_batch_analysis`
  (including a faithful model of the Python regular expressions it uses),
* the `FailureTracker` state machine and the fallback selection loop of
  `MultiAIAnalyzer` (`src/ai/multi_analyzer.py`).

Python machine floats used for scores and timestamps are modelled as `ℚ`
(the operations involved - comparison, max, subtraction of timestamps - are
used only at the granularity where the claims live); Python strings are
modelled as `String` / `List Char`; Python dicts are modelled as association
lists with first-occurrence lookup and insert-or-overwrite update.
-/

namespace Hermes

/-! ## Stage 1 sliding-window chunking

Embedding of the chunking loop of `BatchCoordinator._run_stage1_ranking`
(`src/ai/batch_coordinator.py` lines 59-77):

```python
if step_size <= 0:
    step_size = 1
paper_chunks = []
for i in range(0, len(all_paper_dicts), step_size):
    chunk = all_paper_dicts[i : i + window_size]
    if chunk:
        # 避免最后产生一个过小的批次
        if len(paper_chunks) > 0 and len(chunk) < window_size / 2:
            paper_chunks[-1].extend(chunk)
            break
        paper_chunks.append(chunk)
```

The accumulator holds the chunks in reverse order; `paper_chunks[-1].extend`
is the head of the accumulator.  `len(chunk) < window_size / 2` (Python float
division) is exactly `2 * len(chunk) < window_size` on integers.
-/

/-- One pass of the Python `for i in range(0, len, step)` loop over the list of
start indices, carrying the accumulated chunks in reverse order.  The `break`
after merging a runt chunk is modelled by returning immediately. -/
def chunksGo (papers : List α) (windowSize : Nat) : List Nat → List (List α) → List (List α)
  | [], acc => acc.reverse
  | i :: rest, acc =>
    match (papers.drop i).take windowSize, acc with
    | [], acc => chunksGo papers windowSize rest acc
    | x :: xs, [] => chunksGo papers windowSize rest [x :: xs]
    | x :: xs, last :: prev =>
      if 2 * (x :: xs).length < windowSize then ((last ++ x :: xs) :: prev).reverse
      else chunksGo papers windowSize rest ((x :: xs) :: last :: prev)

/-- The start indices produced by Python's `range(0, n, step)` for `step > 0`:
`0, step, 2*step, ...` while `< n`; there are `⌈n / step⌉` of them. -/
def pyRangeStep (n step : Nat) : List Nat :=
  List.range' 0 ((n + step - 1) / step) step

/-- The sliding-window chunks built by `_run_stage1_ranking`.  The `stepSize`
is an integer from configuration; the source replaces a non-positive step by
`1` before the loop. -/
def stage1Chunks (papers : List α) (windowSize : Nat) (stepSize : Int) : List (List α) :=
  let step : Nat := if stepSize ≤ 0 then 1 else stepSize.toNat
  chunksGo papers windowSize (pyRangeStep papers.length step) []

/-- Invariant of the chunking loop: once the accumulator is nonempty and all
accumulated chunks have at least `windowSize / 2` elements (`W ≤ 2·len`),
every chunk of the final result does too.  A runt trailing chunk is merged
into the previous chunk (which only grows), and the append branch is guarded
by `¬(2·len < W)` whenever the accumulator is nonempty. -/
theorem chunksGo_good (papers : List α) (W : Nat) :
    ∀ (is : List Nat) (acc : List (List α)),
      (∀ c ∈ acc, W ≤ 2 * c.length) → acc ≠ [] →
      ∀ c ∈ chunksGo papers W is acc, W ≤ 2 * c.length := by
  intro is
  induction is with
  | nil =>
    intro acc hacc _ c hc
    rw [chunksGo.eq_def] at hc
    exact hacc c (List.mem_reverse.mp hc)
  | cons i rest ih =>
    intro acc hacc hne c hc
    rw [chunksGo.eq_def] at hc
    dsimp only at hc
    split at hc
    · exact ih _ hacc hne c hc
    · exact absurd rfl hne
    · rename_i x xs last prev heq
      split at hc
      · next hm =>
        simp only [List.mem_reverse, List.mem_cons] at hc
        rcases hc with hc | hc
        · subst hc
          calc W ≤ 2 * last.length := hacc last (List.mem_cons_self _ _)
            _ ≤ 2 * (last ++ x :: xs).length := by
                simp only [List.length_append]; omega
        · exact hacc c (List.mem_cons_of_mem _ hc)
      · next hm =>
        refine ih ((x :: xs) :: last :: prev) ?_ (by simp) c hc
        intro d hd
        rcases List.mem_cons.mp hd with hd | hd
        · subst hd
          exact le_of_not_lt hm
        · exact hacc d hd

/-- C4 -- **No runt windows.**  For every item list, window size `W`, and
positive step size `S`, every window produced by the Stage-1 chunking of
`_run_stage1_ranking` has at least `W / 2` items (stated over integers as
`W ≤ 2 · size`), provided the item count `N` is at least `W / 2`
(`W ≤ 2 · N`); a trailing partition smaller than `W / 2` is merged into the
previous window (`paper_chunks[-1].extend(chunk)`) rather than emitted on
its own. -/
theorem stage1Chunks_no_runt_windows (papers : List α) (W : Nat) (S : Int)
    (hS : 0 < S) (hN : W ≤ 2 * papers.length) :
    ∀ c ∈ stage1Chunks papers W S, W ≤ 2 * c.length := by
  intro c hc
  rcases Nat.eq_zero_or_pos W with hW | hW
  · simp [hW]
  simp only [stage1Chunks] at hc
  rw [if_neg (by omega)] at hc
  have hn : 0 < papers.length := by omega
  set step := S.toNat with hstep
  have hstep1 : 0 < step := by omega
  -- the index list starts with 0
  obtain ⟨L, hL⟩ : ∃ L, (papers.length + step - 1) / step = L + 1 := by
    have : 1 ≤ (papers.length + step - 1) / step := by
      rw [Nat.le_div_iff_mul_le hstep1]
      omega
    exact ⟨(papers.length + step - 1) / step - 1, by omega⟩
  unfold pyRangeStep at hc
  rw [hL, List.range'] at hc
  -- first iteration: the chunk at index 0 is nonempty and the accumulator is
  -- empty, so it is appended
  rw [chunksGo.eq_def] at hc
  dsimp only at hc
  split at hc
  · next heq =>
    exfalso
    have := congrArg List.length heq
    simp only [List.drop_zero, List.length_take, List.length_nil] at this
    omega
  · rename_i x xs heq htriv
    refine chunksGo_good papers W _ _ ?_ (by simp) c hc
    intro d hd
    rcases List.mem_cons.mp hd with hd | hd
    · subst hd
      have := congrArg List.length heq
      simp only [List.drop_zero, List.length_take] at this
      rw [← this]
      omega
    · simp at hd
  · rename_i heq2
    cases heq2

/-- Closed witness for `stage1Chunks_no_runt_windows`: 23 items, window 10,
step 5 satisfy the hypotheses, and indeed every produced window has at least
5 items. -/
theorem stage1Chunks_no_runt_windows_witness :
    (0 : Int) < 5 ∧ 10 ≤ 2 * (List.range 23).length ∧
      ∀ c ∈ stage1Chunks (List.range 23) 10 5, 10 ≤ 2 * c.length :=
  ⟨by decide, by simp,
    stage1Chunks_no_runt_windows (List.range 23) 10 5 (by decide) (by simp)⟩

/-- C3 counterexample -- on exactly 23 items with window size 10 and step
size 5, the chunking loop of `_run_stage1_ranking` produces **4** windows of
sizes `[10, 10, 10, 11]` (the windows overlap, since the start indices are
`0, 5, 10, 15`, and the 3-item partition at offset 20 is merged into the
fourth window), not 2 windows with a final window of 13 items as the spec's
scenario states. -/
theorem stage1Chunks_23_10_5_counterexample :
    (stage1Chunks (List.range 23) 10 5).map List.length = [10, 10, 10, 11] ∧
      (stage1Chunks (List.range 23) 10 5).length ≠ 2 ∧
      ((stage1Chunks (List.range 23) 10 5).getLast?.map List.length) ≠ some 13 := by
  refine ⟨by decide, ?_, ?_⟩ <;> decide

/-- C3 (amended) -- for an input of exactly 23 items with window size 10 and
step size 5, the Stage-1 windowing step produces exactly 4 windows: three of
size 10 (start offsets 0, 5, 10) and a final window of size 11, obtained by
merging the 3-item trailing partition at offset 20 into the 8-item window at
offset 15. -/
theorem stage1Chunks_23_10_5 :
    (stage1Chunks (List.range 23) 10 5).map List.length = [10, 10, 10, 11] := by
  decide

/-! ## The `FailureTracker` state machine and the fallback selection loop

Embedding of `FailureTracker` and of `MultiAIAnalyzer._analyze_with_fallback` /
`MultiAIAnalyzer._reset_some_failures` (`src/ai/multi_analyzer.py`).

Timestamps (`time.time()` floats) are modelled as `ℚ`.  The per-provider
`defaultdict(int)` of failure counts is a total function `AIProvider → Nat`
(missing key = 0); `last_failure_time` is a `defaultdict(float)`, but the
source tests *membership* (`provider in self.last_failure_time`) before
reading it, so it is modelled as `AIProvider → Option ℚ`; the
`disabled_providers` set is its indicator function `AIProvider → Bool`. -/

/-- The `AIProvider` enum of `src/ai/multi_analyzer.py`. -/
inductive AIProvider where
  | deepseek
  | openai
  | claude
  | gemini
  | zhipu
deriving DecidableEq, Repr

/-- `AIProvider.value` (the enum's string value). -/
def AIProvider.value : AIProvider → String
  | .deepseek => "deepseek"
  | .openai => "openai"
  | .claude => "claude"
  | .gemini => "gemini"
  | .zhipu => "zhipu"

/-- The mutable state of a `FailureTracker` instance, together with its two
constructor parameters. -/
structure FailureTracker where
  maxConsecutiveFailures : Nat
  resetTime : ℚ
  failureCounts : AIProvider → Nat
  lastFailureTime : AIProvider → Option ℚ
  disabledProviders : AIProvider → Bool

/-- `FailureTracker.record_failure`, called at time `now`.  Returns the new
tracker state and the boolean result (whether the provider should be
disabled):

```python
current_time = time.time()
if (provider in self.last_failure_time and
    current_time - self.last_failure_time[provider] > self.reset_time):
    self.failure_counts[provider] = 0
self.failure_counts[provider] += 1
self.last_failure_time[provider] = current_time
if self.failure_counts[provider] >= self.max_consecutive_failures:
    self.disabled_providers.add(provider)
    return True
return False
```
-/
def recordFailure (t : FailureTracker) (p : AIProvider) (now : ℚ) :
    FailureTracker × Bool :=
  let c0 : Nat :=
    match t.lastFailureTime p with
    | some tf => if t.resetTime < now - tf then 0 else t.failureCounts p
    | none => t.failureCounts p
  let c1 := c0 + 1
  let counts := fun q => if q = p then c1 else t.failureCounts q
  let lft := fun q => if q = p then some now else t.lastFailureTime q
  if t.maxConsecutiveFailures ≤ c1 then
    ({ t with
        failureCounts := counts
        lastFailureTime := lft
        disabledProviders := fun q => if q = p then true else t.disabledProviders q },
      true)
  else
    ({ t with failureCounts := counts, lastFailureTime := lft }, false)

/-- `FailureTracker.record_success`: reset the provider's consecutive-failure
count to 0 and remove it from the disabled set. -/
def recordSuccess (t : FailureTracker) (p : AIProvider) : FailureTracker :=
  { t with
    failureCounts := fun q => if q = p then 0 else t.failureCounts q
    disabledProviders := fun q => if q = p then false else t.disabledProviders q }

/-- `FailureTracker.is_disabled`: membership in the disabled set. -/
def isDisabled (t : FailureTracker) (p : AIProvider) : Bool :=
  t.disabledProviders p

/-- `MultiAIAnalyzer._reset_some_failures`:

```python
for provider in self.failure_tracker.disabled_providers.copy():
    if provider != AIProvider.GEMINI:  # Gemini安全过滤器问题通常是持续性的
        self.failure_tracker.failure_counts[provider] = \
            max(0, self.failure_tracker.failure_counts[provider] - 1)
        if self.failure_tracker.failure_counts[provider] < self.failure_tracker.max_consecutive_failures:
            self.failure_tracker.disabled_providers.remove(provider)
```

Each disabled provider other than `GEMINI` has its count decremented by one
(`max(0, c-1)`, which is truncated subtraction on `Nat`) and is re-enabled
exactly when the new count drops below the maximum; the updates are
per-provider, so the set-iteration order is irrelevant. -/
def resetSomeFailures (t : FailureTracker) : FailureTracker :=
  { t with
    failureCounts := fun p =>
      if t.disabledProviders p ∧ p ≠ .gemini then t.failureCounts p - 1
      else t.failureCounts p,
    disabledProviders := fun p =>
      if t.disabledProviders p ∧ p ≠ .gemini then
        decide (t.maxConsecutiveFailures ≤ t.failureCounts p - 1)
      else t.disabledProviders p }

/-- The part of a `MultiAIAnalyzer`'s state that the fallback selection
reads: the parsed fallback order, which providers have an analyzer
constructed (`provider in self.analyzers`), each analyzer's
`is_available()` flag, and the failure tracker. -/
structure MultiAnalyzerState where
  fallbackOrder : List AIProvider
  configured : AIProvider → Bool
  availableFlag : AIProvider → Bool
  tracker : FailureTracker

/-- The candidate list computed (twice) inside `_analyze_with_fallback`:

```python
available_providers = [
    provider for provider in self.fallback_order
    if (provider in self.analyzers and
        self.analyzers[provider].is_available() and
        not self.failure_tracker.is_disabled(provider))
]
```
-/
def availableProviders (st : MultiAnalyzerState) : List AIProvider :=
  st.fallbackOrder.filter fun p =>
    st.configured p && st.availableFlag p && !(isDisabled st.tracker p)

/-- The outcome of one `analyzer.analyze_paper(...)` call: either the
analysis text, or the exception message. -/
inductive AnalyzeOutcome where
  | ok (analysis : String)
  | err (msg : String)

/-- The value returned by `_analyze_with_fallback`: either the result dict
built by `_format_analysis_result` for the first provider that succeeded
(whose `provider` key is that provider's enum value), or the error dict
built after every candidate failed, whose `provider` key is the literal
string `"error"` and which carries the last exception message and the list
of attempted providers. -/
inductive FallbackResult where
  | success (analysis : String) (provider : String) (model : String)
  | allFailed (lastError : Option String) (attempted : List AIProvider)
deriving DecidableEq, Repr

/-- The `for provider in available_providers:` loop of
`_analyze_with_fallback`: try each candidate in order; on success record the
success and return the formatted result, on an exception record the failure
and continue; when the candidates are exhausted build the error dict from
the last error and attempted providers. -/
def fallbackLoop (models : AIProvider → String) (outcome : AIProvider → AnalyzeOutcome)
    (now : ℚ) :
    List AIProvider → FailureTracker → Option String → List AIProvider →
    FallbackResult × FailureTracker
  | [], tr, lastErr, attempted => (.allFailed lastErr attempted, tr)
  | p :: rest, tr, lastErr, attempted =>
    match outcome p with
    | .ok analysis => (.success analysis p.value (models p), recordSuccess tr p)
    | .err msg =>
      fallbackLoop models outcome now rest (recordFailure tr p now).1 (some msg)
        (attempted ++ [p])

/-- `_analyze_with_fallback`: compute the candidate list; if it is empty,
run `_reset_some_failures` once and recompute; then run the fallback loop.
The `outcome` oracle stands for the network call
`analyzer.analyze_paper(paper, analysis_type)` made for each attempted
provider (its exceptions included). -/
def analyzeWithFallback (st : MultiAnalyzerState) (models : AIProvider → String)
    (outcome : AIProvider → AnalyzeOutcome) (now : ℚ) :
    FallbackResult × FailureTracker :=
  let avail := availableProviders st
  if avail.isEmpty then
    let tr' := resetSomeFailures st.tracker
    let st' := { st with tracker := tr' }
    fallbackLoop models outcome now (availableProviders st') tr' none []
  else
    fallbackLoop models outcome now avail st.tracker none []

/-- Kinds of backend failure distinguished by the specification.  The
`FailureTracker` state does not record them; they are used only to state
claims about which failures should exempt a backend from the recovery
sweep. -/
inductive FailureKind where
  | transient
  | permanentContentPolicy
deriving DecidableEq, Repr

/-- Concrete tracker: `claude` was disabled at time 0 after 3 consecutive
failures (`max_consecutive_failures = 3`, `reset_time = 300`). -/
def c2Tracker : FailureTracker where
  maxConsecutiveFailures := 3
  resetTime := 300
  failureCounts := fun p => if p = .claude then 3 else 0
  lastFailureTime := fun p => if p = .claude then some 0 else none
  disabledProviders := fun p => decide (p = .claude)

/-- Concrete selection state: `deepseek` healthy, `claude` disabled (see
`c2Tracker`), both configured and available. -/
def c2State : MultiAnalyzerState where
  fallbackOrder := [.deepseek, .claude]
  configured := fun _ => true
  availableFlag := fun _ => true
  tracker := c2Tracker

/-- C2 counterexample -- time-window expiry alone does **not** re-enable a
disabled backend at selection time.  In state `c2State`, `claude` was
disabled at time 0 with reset window 300; at `now = 1000` the window has
long elapsed (`1000 - 0 > 300`), yet the selection attempt still excludes
`claude` from the candidate list (only `deepseek` is offered), invokes
`deepseek`, and leaves `claude`'s consecutive-failure counter at 3 and its
disabled flag set: `is_disabled` consults only set membership, never the
clock. -/
theorem recovery_by_time_counterexample :
    (1000 : ℚ) - 0 > c2Tracker.resetTime ∧
    c2Tracker.disabledProviders .claude = true ∧
    availableProviders c2State = [.deepseek] ∧
    (analyzeWithFallback c2State (fun _ => "m") (fun _ => .ok "a") 1000).1
      = .success "a" "deepseek" "m" ∧
    (analyzeWithFallback c2State (fun _ => "m") (fun _ => .ok "a") 1000).2.failureCounts .claude
      = 3 ∧
    (analyzeWithFallback c2State (fun _ => "m") (fun _ => .ok "a") 1000).2.disabledProviders .claude
      = true := by
  refine ⟨by norm_num [c2Tracker], rfl, rfl, rfl, rfl, rfl⟩

/-- C2 (amended) -- expiry of the reset window does not, by itself,
re-enable a `Disabled` backend.  Selection ignores the clock entirely: a
backend in the disabled set is excluded from the candidate list no matter
how much time has passed.  The reset window acts only inside the *next*
`record_failure` call: when `now - last_failure_time > reset_time` the
counter is zeroed before being incremented (so that failure leaves the
counter at 1), but the provider is never removed from the disabled set by
`record_failure`; only a recorded success (or the all-disabled recovery
sweep) re-enables it. -/
theorem disabled_not_reenabled_by_time (st : MultiAnalyzerState) (p : AIProvider)
    (t : FailureTracker) (now tf : ℚ)
    (hd : st.tracker.disabledProviders p = true)
    (hl : t.lastFailureTime p = some tf)
    (helapsed : t.resetTime < now - tf) :
    p ∉ availableProviders st ∧
    (recordFailure t p now).1.failureCounts p = 1 ∧
    (t.disabledProviders p = true → (recordFailure t p now).1.disabledProviders p = true) ∧
    (recordSuccess t p).disabledProviders p = false := by
  refine ⟨?_, ?_, ?_, ?_⟩
  · intro hmem
    rw [availableProviders, List.mem_filter] at hmem
    simp [isDisabled, hd] at hmem
  · rw [recordFailure]
    simp only [hl, if_pos helapsed]
    split
    · simp
    · simp
  · intro hdt
    rw [recordFailure]
    simp only [hl, if_pos helapsed]
    split
    · simp
    · simpa using hdt
  · simp [recordSuccess]

/-- Closed witness for `disabled_not_reenabled_by_time` at the concrete
state `c2State` / `c2Tracker`, provider `claude`, `now = 1000`, last
failure at time 0. -/
theorem disabled_not_reenabled_by_time_witness :
    (c2State.tracker.disabledProviders .claude = true ∧
      c2Tracker.lastFailureTime .claude = some 0 ∧
      c2Tracker.resetTime < (1000 : ℚ) - 0) ∧
    (AIProvider.claude ∉ availableProviders c2State ∧
      (recordFailure c2Tracker .claude 1000).1.failureCounts .claude = 1 ∧
      (c2Tracker.disabledProviders .claude = true →
        (recordFailure c2Tracker .claude 1000).1.disabledProviders .claude = true) ∧
      (recordSuccess c2Tracker .claude).disabledProviders .claude = false) :=
  ⟨⟨rfl, rfl, by norm_num [c2Tracker]⟩,
    disabled_not_reenabled_by_time c2State .claude c2Tracker 1000 0 rfl rfl
      (by norm_num [c2Tracker])⟩

/-- Concrete tracker: `gemini` was disabled at time 0 after 3 consecutive
failures (`max_consecutive_failures = 3`, `reset_time = 300`). -/
def c7Tracker : FailureTracker where
  maxConsecutiveFailures := 3
  resetTime := 300
  failureCounts := fun p => if p = .gemini then 3 else 0
  lastFailureTime := fun p => if p = .gemini then some 0 else none
  disabledProviders := fun p => decide (p = .gemini)

/-- A record of why each provider last failed, for stating the claim about
sweep exemption: here every one of `gemini`'s failures was an ordinary
transient error (timeout), not a content-policy rejection. -/
def c7Reasons : AIProvider → Option FailureKind :=
  fun p => if p = .gemini then some .transient else none

/-- C7 counterexample -- the recovery sweep's exemption is keyed on the
provider's identity (`provider != AIProvider.GEMINI`), not on the kind of
its last failure.  In `c7Tracker`, `gemini` is disabled and its last
failure was a plain transient error (`c7Reasons`), so under the claim it is
non-exempt and the sweep must reduce its counter by one (from 3 to 2,
re-enabling it since `2 < 3`); the code's sweep instead leaves its counter
at 3 and keeps it disabled. -/
theorem sweep_exemption_counterexample :
    c7Tracker.disabledProviders .gemini = true ∧
    c7Reasons .gemini ≠ some .permanentContentPolicy ∧
    c7Tracker.failureCounts .gemini - 1 < c7Tracker.maxConsecutiveFailures ∧
    (resetSomeFailures c7Tracker).failureCounts .gemini
      ≠ c7Tracker.failureCounts .gemini - 1 ∧
    (resetSomeFailures c7Tracker).disabledProviders .gemini = true := by
  refine ⟨rfl, by decide, by decide, by decide, by decide⟩

/-- C7 (amended) -- when every backend is disabled, the recovery sweep is
applied exactly once per selection attempt, and it is keyed on provider
identity rather than on the reason for the last failure: the `gemini`
backend is always exempt (its counter and disabled flag are unchanged, even
when its failures were ordinary transient errors), every other disabled
backend's counter is reduced by exactly one (`max(0, c-1)`), and exactly
those backends whose counter drops below `max_consecutive_failures` are
re-enabled; backends that are not disabled are untouched. -/
theorem sweep_semantics (t : FailureTracker) (p : AIProvider) :
    (t.disabledProviders p = true → p ≠ .gemini →
      (resetSomeFailures t).failureCounts p = t.failureCounts p - 1 ∧
      ((resetSomeFailures t).disabledProviders p
        = decide (t.maxConsecutiveFailures ≤ t.failureCounts p - 1))) ∧
    (p = .gemini ∨ t.disabledProviders p = false →
      (resetSomeFailures t).failureCounts p = t.failureCounts p ∧
      (resetSomeFailures t).disabledProviders p = t.disabledProviders p) ∧
    (∀ (st : MultiAnalyzerState) (models : AIProvider → String)
        (outcome : AIProvider → AnalyzeOutcome) (now : ℚ),
      availableProviders st = [] →
      analyzeWithFallback st models outcome now =
        fallbackLoop models outcome now
          (availableProviders { st with tracker := resetSomeFailures st.tracker })
          (resetSomeFailures st.tracker) none []) := by
  refine ⟨?_, ?_, ?_⟩
  · intro hd hg
    constructor
    · rw [resetSomeFailures]
      simp only [if_pos (And.intro hd hg)]
    · rw [resetSomeFailures]
      simp only [if_pos (And.intro hd hg)]
  · intro h
    have hcond : ¬(t.disabledProviders p = true ∧ p ≠ .gemini) := by
      rcases h with h | h
      · exact fun hh => hh.2 h
      · exact fun hh => by rw [h] at hh; exact Bool.false_ne_true hh.1
    constructor
    · rw [resetSomeFailures]
      simp only [if_neg hcond]
    · rw [resetSomeFailures]
      simp only [if_neg hcond]
  · intro st models outcome now hempty
    rw [analyzeWithFallback]
    simp only [hempty, List.isEmpty_nil, if_pos]

/-- Closed witness for `sweep_semantics` at `c7Tracker` and provider
`claude` (not disabled there, so the sweep leaves it untouched). -/
theorem sweep_semantics_witness :
    ((c7Tracker.disabledProviders .claude = true → AIProvider.claude ≠ .gemini →
        (resetSomeFailures c7Tracker).failureCounts .claude
          = c7Tracker.failureCounts .claude - 1 ∧
        ((resetSomeFailures c7Tracker).disabledProviders .claude
          = decide (c7Tracker.maxConsecutiveFailures ≤ c7Tracker.failureCounts .claude - 1)))) ∧
    ((resetSomeFailures c7Tracker).failureCounts .claude = c7Tracker.failureCounts .claude ∧
      (resetSomeFailures c7Tracker).disabledProviders .claude
        = c7Tracker.disabledProviders .claude) :=
  ⟨(sweep_semantics c7Tracker .claude).1,
    (sweep_semantics c7Tracker .claude).2.1 (Or.inr (by decide))⟩

/-- C8 -- **Fallback exhaustion.**  If every configured backend is disabled
(the candidate list is empty) and the recovery sweep does not re-enable any
(the recomputed candidate list is still empty), then `_analyze_with_fallback`
returns the distinguished all-backends-failed result: the fallback loop runs
over an empty candidate list, so the result is `allFailed` -- a different
constructor from every normal `success` analysis result (in the source, the
returned dict has `provider = "error"` instead of a backend name) -- with an
empty list of attempted providers, and the `outcome` oracle (the network
call `analyzer.analyze_paper`) is never consulted: the result is the same
for every oracle. -/
theorem fallback_exhaustion (st : MultiAnalyzerState)
    (h1 : availableProviders st = [])
    (h2 : availableProviders { st with tracker := resetSomeFailures st.tracker } = []) :
    ∀ (models : AIProvider → String) (outcome outcome' : AIProvider → AnalyzeOutcome)
      (now : ℚ),
      analyzeWithFallback st models outcome now
        = (FallbackResult.allFailed none [], resetSomeFailures st.tracker) ∧
      (∀ (a pr m : String),
        (analyzeWithFallback st models outcome now).1 ≠ FallbackResult.success a pr m) ∧
      analyzeWithFallback st models outcome now = analyzeWithFallback st models outcome' now := by
  intro models outcome outcome' now
  have key : ∀ (o : AIProvider → AnalyzeOutcome),
      analyzeWithFallback st models o now
        = (FallbackResult.allFailed none [], resetSomeFailures st.tracker) := by
    intro o
    rw [analyzeWithFallback]
    simp only [h1, List.isEmpty_nil, if_pos, h2]
    rfl
  refine ⟨key outcome, ?_, by rw [key outcome, key outcome']⟩
  intro a pr m
  rw [key outcome]
  exact fun h => FallbackResult.noConfusion h

/-- Concrete selection state for the witness of `fallback_exhaustion`:
`gemini` is the only configured backend and it is disabled (`c7Tracker`);
the sweep exempts `gemini`, so it re-enables nothing. -/
def c8State : MultiAnalyzerState where
  fallbackOrder := [.gemini]
  configured := fun p => decide (p = .gemini)
  availableFlag := fun _ => true
  tracker := c7Tracker

/-- Closed witness for `fallback_exhaustion` at `c8State`. -/
theorem fallback_exhaustion_witness :
    (availableProviders c8State = [] ∧
      availableProviders { c8State with tracker := resetSomeFailures c8State.tracker } = []) ∧
    analyzeWithFallback c8State (fun _ => "m") (fun _ => .ok "a") 0
      = (FallbackResult.allFailed none [], resetSomeFailures c8State.tracker) :=
  ⟨⟨rfl, by decide⟩,
    (fallback_exhaustion c8State rfl (by decide) (fun _ => "m") (fun _ => .ok "a")
      (fun _ => .err "e") 0).1⟩

/-- A sequence of consecutive `record_failure` calls for provider `p` at the
given times (no intervening successes). -/
def applyFailures (t : FailureTracker) (p : AIProvider) (times : List ℚ) : FailureTracker :=
  times.foldl (fun s now => (recordFailure s p now).1) t

/-- `record_failure` never changes the constructor parameters
`max_consecutive_failures` and `reset_time`. -/
theorem recordFailure_const (t : FailureTracker) (p : AIProvider) (now : ℚ) :
    (recordFailure t p now).1.maxConsecutiveFailures = t.maxConsecutiveFailures ∧
    (recordFailure t p now).1.resetTime = t.resetTime := by
  rw [recordFailure]
  split <;> exact ⟨rfl, rfl⟩

/-- One `record_failure` step for `p` whose gap from the stored last-failure
time does not exceed the reset window (or with no stored last-failure time):
the count is incremented, the last-failure time becomes `now`, and the
provider is (newly) disabled exactly when the incremented count reaches the
maximum. -/
theorem recordFailure_step (t : FailureTracker) (p : AIProvider) (now : ℚ)
    (h : ∀ tf, t.lastFailureTime p = some tf → now - tf ≤ t.resetTime) :
    (recordFailure t p now).1.failureCounts p = t.failureCounts p + 1 ∧
    (recordFailure t p now).1.lastFailureTime p = some now ∧
    ((recordFailure t p now).1.disabledProviders p
      = (t.disabledProviders p
          || decide (t.maxConsecutiveFailures ≤ t.failureCounts p + 1))) := by
  rw [recordFailure]
  rcases hl : t.lastFailureTime p with - | tf
  · simp only [hl]
    split
    · next hmax => simp [hmax]
    · next hmax => simp [hmax]
  · have hle : ¬ t.resetTime < now - tf := not_lt.mpr (h tf hl)
    simp only [hl, if_neg hle]
    split
    · next hmax => simp [hmax]
    · next hmax => simp [hmax]

/-- Folding consecutive failures whose gaps all stay within the reset
window: the count increases by the number of failures, and the provider ends
up disabled exactly when it already was or the final count reaches the
maximum (counts only grow along the sequence, so the threshold is reached at
some intermediate step iff it is reached at the end). -/
theorem applyFailures_spec (p : AIProvider) :
    ∀ (times : List ℚ) (t : FailureTracker) (tf : ℚ),
      t.lastFailureTime p = some tf →
      List.Chain' (fun a b => b - a ≤ t.resetTime) (tf :: times) →
      (applyFailures t p times).failureCounts p = t.failureCounts p + times.length ∧
      ((applyFailures t p times).disabledProviders p
        = (t.disabledProviders p
            || (!times.isEmpty
                && decide (t.maxConsecutiveFailures ≤ t.failureCounts p + times.length)))) := by
  intro times
  induction times with
  | nil =>
    intro t tf hl hchain
    simp [applyFailures]
  | cons now rest ih =>
    intro t tf hl hchain
    have hgap : now - tf ≤ t.resetTime := (List.chain'_cons.mp hchain).1
    have hstep := recordFailure_step t p now (fun tf' htf' => by
      rw [hl] at htf'
      cases htf'
      exact hgap)
    have hconst := recordFailure_const t p now
    have hchain' : List.Chain' (fun a b => b - a ≤ (recordFailure t p now).1.resetTime)
        (now :: rest) := by
      rw [hconst.2]
      exact (List.chain'_cons.mp hchain).2
    have := ih (recordFailure t p now).1 now hstep.2.1 hchain'
    rw [applyFailures, List.foldl_cons] at *
    refine ⟨?_, ?_⟩
    · rw [this.1, hstep.1]
      simp [List.length_cons]
      omega
    · rw [this.2, hstep.2.2, hstep.1, hconst.1]
      by_cases h1 : t.maxConsecutiveFailures ≤ t.failureCounts p + 1
      · have h2 : t.maxConsecutiveFailures ≤ t.failureCounts p + (rest.length + 1) := by omega
        simp [h1, h2]
      · rcases rest with - | ⟨r, rs⟩
        · simp [h1]
        · by_cases h2 : t.maxConsecutiveFailures ≤ t.failureCounts p + ((r :: rs).length + 1)
          · simp only [List.length_cons] at h2 ⊢
            have h3 : t.maxConsecutiveFailures ≤ t.failureCounts p + 1 + (rs.length + 1) := by
              omega
            simp [h1, h2, h3]
          · simp only [List.length_cons] at h2 ⊢
            have h3 : ¬ t.maxConsecutiveFailures ≤ t.failureCounts p + 1 + (rs.length + 1) := by
              omega
            simp [h1, h2, h3]

/-- A fresh tracker with the source defaults `max_consecutive_failures = 3`
and `reset_time = 300`, no recorded failures. -/
def c6Tracker : FailureTracker where
  maxConsecutiveFailures := 3
  resetTime := 300
  failureCounts := fun _ => 0
  lastFailureTime := fun _ => none
  disabledProviders := fun _ => false

/-- `applyFailures` never changes the constructor parameters. -/
theorem applyFailures_const (p : AIProvider) :
    ∀ (times : List ℚ) (t : FailureTracker),
      (applyFailures t p times).maxConsecutiveFailures = t.maxConsecutiveFailures ∧
      (applyFailures t p times).resetTime = t.resetTime := by
  intro times
  induction times with
  | nil => intro t; exact ⟨rfl, rfl⟩
  | cons now rest ih =>
    intro t
    exact ⟨((ih (recordFailure t p now).1).1).trans (recordFailure_const t p now).1,
      ((ih (recordFailure t p now).1).2).trans (recordFailure_const t p now).2⟩

/-- `record_failure` called on a state whose counter is 0 (e.g. right after
a success): whatever the reset-window check does, the counter that gets
incremented is 0, so the new count is 1 and the call reports "disable"
exactly when the maximum is ≤ 1. -/
theorem recordFailure_after_success (t : FailureTracker) (p : AIProvider) (now : ℚ)
    (hc : t.failureCounts p = 0) :
    (recordFailure t p now).1.failureCounts p = 1 ∧
    (recordFailure t p now).2 = decide (t.maxConsecutiveFailures ≤ 1) ∧
    ((recordFailure t p now).1.disabledProviders p
      = (t.disabledProviders p || decide (t.maxConsecutiveFailures ≤ 1))) := by
  rw [recordFailure]
  rcases hl : t.lastFailureTime p with - | tf
  · simp only [hl, hc]
    split
    · next hmax => simp [Nat.le_of_eq, hmax]
    · next hmax => simp [hmax]
  · simp only [hl, hc, ite_self]
    split
    · next hmax => simp [hmax]
    · next hmax => simp [hmax]

/-- C6 -- with `max_consecutive_failures = k`: a backend that records `k`
consecutive failures (no intervening success, each within the reset window
of the previous) transitions to Disabled with its counter at `k`; a single
recorded success then resets the counter to 0 and re-enables it; and after
that success one further failure alone cannot disable the backend again
(for `k ≥ 2` it merely sets the counter to 1). -/
theorem failure_disable_and_success_reset
    (t : FailureTracker) (p : AIProvider) (times : List ℚ) (now : ℚ)
    (hc0 : t.failureCounts p = 0) (hl : t.lastFailureTime p = none)
    (hd : t.disabledProviders p = false)
    (hlen : times.length = t.maxConsecutiveFailures)
    (hpos : 0 < t.maxConsecutiveFailures)
    (hchain : List.Chain' (fun a b => b - a ≤ t.resetTime) times) :
    ((applyFailures t p times).disabledProviders p = true ∧
      (applyFailures t p times).failureCounts p = t.maxConsecutiveFailures) ∧
    ((recordSuccess (applyFailures t p times) p).failureCounts p = 0 ∧
      (recordSuccess (applyFailures t p times) p).disabledProviders p = false) ∧
    (2 ≤ t.maxConsecutiveFailures →
      ((recordFailure (recordSuccess (applyFailures t p times) p) p now).2 = false ∧
        (recordFailure (recordSuccess (applyFailures t p times) p) p
            now).1.disabledProviders p = false ∧
        (recordFailure (recordSuccess (applyFailures t p times) p) p
            now).1.failureCounts p = 1)) := by
  have hmain : (applyFailures t p times).disabledProviders p = true ∧
      (applyFailures t p times).failureCounts p = t.maxConsecutiveFailures := by
    rcases times with - | ⟨first, rest⟩
    · exfalso
      simp only [List.length_nil] at hlen
      omega
    · have hstep := recordFailure_step t p first (fun tf htf => by
        rw [hl] at htf
        cases htf)
      have hconst := recordFailure_const t p first
      have hchain2 : List.Chain' (fun a b => b - a ≤ (recordFailure t p first).1.resetTime)
          (first :: rest) := by
        rw [hconst.2]
        exact hchain
      have hspec := applyFailures_spec p rest (recordFailure t p first).1 first
        hstep.2.1 hchain2
      have hAF : applyFailures t p (first :: rest)
          = applyFailures (recordFailure t p first).1 p rest := rfl
      simp only [List.length_cons] at hlen
      constructor
      · rw [hAF, hspec.2, hstep.2.2, hstep.1, hconst.1, hc0, hd]
        rcases rest with - | ⟨r, rs⟩
        · simp only [List.length_nil] at hlen ⊢
          have h1 : t.maxConsecutiveFailures ≤ 0 + 1 := by omega
          simp [h1]
        · simp only [List.length_cons] at hlen ⊢
          have h1 : t.maxConsecutiveFailures ≤ 0 + 1 + (rs.length + 1) := by omega
          simp [h1]
      · rw [hAF, hspec.1, hstep.1, hc0]
        omega
  refine ⟨hmain, ⟨by simp [recordSuccess], by simp [recordSuccess]⟩, ?_⟩
  intro h2
  have hcs : (recordSuccess (applyFailures t p times) p).failureCounts p = 0 := by
    simp [recordSuccess]
  have hafter := recordFailure_after_success (recordSuccess (applyFailures t p times) p)
    p now hcs
  have hmaxeq : (recordSuccess (applyFailures t p times) p).maxConsecutiveFailures
      = t.maxConsecutiveFailures := (applyFailures_const p times t).1
  have hnd : decide ((recordSuccess (applyFailures t p times) p).maxConsecutiveFailures ≤ 1)
      = false := by
    rw [hmaxeq]
    simp only [decide_eq_false_iff_not]
    omega
  refine ⟨by rw [hafter.2.1, hnd], ?_, hafter.1⟩
  rw [hafter.2.2, hnd]
  simp [recordSuccess]

/-- Closed witness for `failure_disable_and_success_reset`: a fresh tracker
with `max_consecutive_failures = 3`, `reset_time = 300`, and three `claude`
failures at times 0, 100, 200 (each gap ≤ 300). -/
theorem failure_disable_and_success_reset_witness :
    (c6Tracker.failureCounts .claude = 0 ∧ c6Tracker.lastFailureTime .claude = none ∧
      c6Tracker.disabledProviders .claude = false ∧
      ([(0 : ℚ), 100, 200].length = c6Tracker.maxConsecutiveFailures) ∧
      0 < c6Tracker.maxConsecutiveFailures ∧
      List.Chain' (fun a b => b - a ≤ c6Tracker.resetTime) [(0 : ℚ), 100, 200]) ∧
    ((applyFailures c6Tracker .claude [0, 100, 200]).disabledProviders .claude = true ∧
      (applyFailures c6Tracker .claude [0, 100, 200]).failureCounts .claude
        = c6Tracker.maxConsecutiveFailures) :=
  ⟨⟨rfl, rfl, rfl, rfl, by decide, by
      refine List.chain'_cons.mpr ⟨by norm_num [c6Tracker], ?_⟩
      refine List.chain'_cons.mpr ⟨by norm_num [c6Tracker], ?_⟩
      exact List.chain'_singleton _⟩,
    (failure_disable_and_success_reset c6Tracker .claude [0, 100, 200] 500 rfl rfl rfl rfl
      (by decide) (by
        refine List.chain'_cons.mpr ⟨by norm_num [c6Tracker], ?_⟩
        refine List.chain'_cons.mpr ⟨by norm_num [c6Tracker], ?_⟩
        exact List.chain'_singleton _)).1⟩

/-! ## Stage-1 score collection, max-aggregation, attachment and sort

Embedding of the score-collection half of `_run_stage1_ranking`
(`src/ai/batch_coordinator.py` lines 79-113):

```python
stage1_scores = defaultdict(list)
for future in concurrent.futures.as_completed(future_to_chunk_index):
    ranking_results = future.result()
    for result in ranking_results:
        paper_id = result.get('paper_id')
        score = result.get('score')
        if paper_id and isinstance(score, (int, float)):
            stage1_scores[paper_id].append(float(score))

final_scores = {paper_id: max(scores) for paper_id, scores in stage1_scores.items() if scores}

for paper_dict in all_paper_dicts:
    paper_id = paper_dict.get('paper_id')
    score = final_scores.get(paper_id)
    paper_dict['stage1_score'] = score if score is not None else 0.0

all_paper_dicts.sort(key=lambda p: p.get('stage1_score', 0.0), reverse=True)
```

`as_completed` yields the window results in an arbitrary arrival order; the
flattened list of ranking entries, in arrival order, is the input here, and
permutation of it models a different arrival order.  `sort(key=..., reverse=True)`
is a stable descending sort, modelled by a stable merge sort with
`le a b := key b ≤ key a`. -/

/-- A Python value as far as this code inspects one: a string, a number
(int or float, modelled as `ℚ` -- `float(score)` and the comparisons used
here are exact at this granularity), or any other value (`None`, lists,
...), which every guard in this code rejects. -/
inductive PyVal where
  | str (s : String)
  | num (q : ℚ)
  | other
deriving DecidableEq, Repr

/-- One element of a window's `ranking_results` list, as read by the
collection loop: the values of `result.get('paper_id')` and
`result.get('score')` (`none` when the key is absent). -/
structure RankEntry where
  paperId : Option PyVal
  score : Option PyVal
deriving DecidableEq, Repr

/-- The guard `if paper_id and isinstance(score, (int, float))`: an entry
contributes the pair `(paper_id, float(score))` exactly when its id is a
truthy (non-empty) string and its score is numeric.  (Ids of other truthy
types are not modelled: the upstream JSON parsing produces string ids.) -/
def validEntry (r : RankEntry) : Option (String × ℚ) :=
  match r.paperId, r.score with
  | some (.str s), some (.num q) => if s = "" then none else some (s, q)
  | _, _ => none

/-- `stage1_scores[pid].append(q)` on the `defaultdict(list)`, modelled as
an association list in first-insertion key order. -/
def addScoreEntry (d : List (String × List ℚ)) (pid : String) (q : ℚ) :
    List (String × List ℚ) :=
  if d.any (fun e => e.1 == pid) then
    d.map (fun e => if e.1 = pid then (e.1, e.2 ++ [q]) else e)
  else d ++ [(pid, [q])]

/-- The collection loop over the flattened, arrival-ordered ranking results
of all windows. -/
def stage1ScoresDict (results : List RankEntry) : List (String × List ℚ) :=
  results.foldl
    (fun d r =>
      match validEntry r with
      | some pq => addScoreEntry d pq.1 pq.2
      | none => d) []

/-- The dict comprehension
`final_scores = {pid: max(scores) for pid, scores in stage1_scores.items() if scores}`;
Python `max` of a nonempty list is `List.max?`. -/
def finalScores (results : List RankEntry) : List (String × ℚ) :=
  (stage1ScoresDict results).filterMap fun e =>
    match e.2.max? with
    | some m => some (e.1, m)
    | none => none

/-- `final_scores.get(pid)` (dict keys are unique, so the first match is
the match). -/
def finalScoresGet (results : List RankEntry) (pid : String) : Option ℚ :=
  ((finalScores results).find? (fun e => e.1 == pid)).map (·.2)

/-- The scores collected for `pid`, in arrival order: the specification's
`s1..sn` for an item that appeared in several windows. -/
def scoresOf (results : List RankEntry) (pid : String) : List ℚ :=
  results.filterMap fun r =>
    match validEntry r with
    | some pq => if pq.1 = pid then some pq.2 else none
    | none => none

/-- The per-key view of the score dict (first match, `[]` when absent). -/
def listFor (d : List (String × List ℚ)) (pid : String) : List ℚ :=
  ((d.find? (fun e => e.1 == pid)).map (·.2)).getD []

/-- `List.max?` is invariant under permutation (on `ℚ`). -/
theorem max?_perm_eq {l l' : List ℚ} (h : l.Perm l') : l.max? = l'.max? := by
  have key : ∀ (a : ℚ) (xs : List ℚ), xs.max? = some a ↔ a ∈ xs ∧ ∀ b ∈ xs, b ≤ a :=
    fun a xs =>
      @List.max?_eq_some_iff ℚ a _ _ ⟨fun h1 h2 => le_antisymm h1 h2⟩
        (fun a => le_refl a) (fun a b => max_choice a b) (fun a b c => max_le_iff) xs
  rcases hm : l.max? with - | a
  · rw [List.max?_eq_none_iff] at hm
    subst hm
    rw [h.symm.eq_nil]
    simp
  · rw [key] at hm
    rw [eq_comm, key]
    exact ⟨h.mem_iff.mp hm.1, fun b hb => hm.2 b (h.mem_iff.mpr hb)⟩

/-- The value-update map of `addScoreEntry` preserves keys, so it commutes
with `find?` by key. -/
theorem find?_update_key (d : List (String × List ℚ)) (pid pid' : String) (q : ℚ) :
    (d.map (fun e => if e.1 = pid then (e.1, e.2 ++ [q]) else e)).find?
        (fun e => e.1 == pid')
      = (d.find? (fun e => e.1 == pid')).map
          (fun e => if e.1 = pid then (e.1, e.2 ++ [q]) else e) := by
  induction d with
  | nil => rfl
  | cons e rest ih =>
    rw [List.map_cons]
    have h1 : (if e.1 = pid then (e.1, e.2 ++ [q]) else e).1 = e.1 := by
      split <;> rfl
    by_cases hkey : e.1 = pid'
    · rw [List.find?_cons_of_pos _ (by rw [h1]; simpa using hkey),
        List.find?_cons_of_pos _ (by simpa using hkey)]
      rfl
    · rw [List.find?_cons_of_neg _ (by rw [h1]; simpa using hkey),
        List.find?_cons_of_neg _ (by simpa using hkey)]
      exact ih

/-- Effect of one `stage1_scores[pid].append(q)` on the per-key view of the
score dict. -/
theorem addScoreEntry_listFor (d : List (String × List ℚ)) (pid pid' : String) (q : ℚ) :
    listFor (addScoreEntry d pid q) pid'
      = if pid' = pid then listFor d pid' ++ [q] else listFor d pid' := by
  unfold addScoreEntry
  by_cases hany : d.any (fun e => e.1 == pid)
  · rw [if_pos hany]
    unfold listFor
    rw [find?_update_key]
    rcases hf : d.find? (fun e => e.1 == pid') with - | e
    · by_cases hpp : pid' = pid
      · exfalso
        rcases List.any_eq_true.mp hany with ⟨e, he, hbeq⟩
        have : (d.find? (fun e => e.1 == pid')).isSome :=
          List.find?_isSome.mpr ⟨e, he, by subst hpp; exact hbeq⟩
        rw [hf] at this
        exact Bool.false_ne_true this
      · simp [hpp, hf]
    · have hkey : e.1 = pid' := by simpa using List.find?_some hf
      by_cases hpp : pid' = pid
      · have hep : e.1 = pid := hkey.trans hpp
        rw [hf]
        simp [hep, hpp]
      · have hep : ¬ e.1 = pid := fun hh => hpp (hkey.symm.trans hh)
        rw [hf]
        simp [hep, hpp]
  · rw [if_neg hany]
    unfold listFor
    rw [List.find?_append]
    have hnone : ∀ x ∈ d, ¬ (x.1 == pid) = true := fun x hx hbeq =>
      hany (List.any_eq_true.mpr ⟨x, hx, hbeq⟩)
    by_cases hpp : pid' = pid
    · subst hpp
      rw [List.find?_eq_none.mpr hnone]
      simp
    · have hsingle : List.find? (fun e => e.1 == pid') [(pid, [q])] = none := by
        have hne : ((pid, [q]).1 == pid') = false := by
          simp only [beq_eq_false_iff_ne, ne_eq]
          exact fun hh => hpp hh.symm
        rw [List.find?_cons]
        simp [hne]
      rw [hsingle]
      simp [hpp]

/-- Running the collection loop from an arbitrary dict appends, key by key,
the valid scores of the processed entries in arrival order. -/
theorem stage1_collect_listFor (pid : String) :
    ∀ (results : List RankEntry) (d : List (String × List ℚ)),
      listFor (results.foldl
        (fun d r =>
          match validEntry r with
          | some pq => addScoreEntry d pq.1 pq.2
          | none => d) d) pid
        = listFor d pid ++ scoresOf results pid := by
  intro results
  induction results with
  | nil =>
    intro d
    simp [scoresOf]
  | cons r rest ih =>
    intro d
    rcases hv : validEntry r with - | pq
    · simp only [List.foldl_cons, hv]
      rw [ih]
      unfold scoresOf
      rw [List.filterMap_cons]
      simp only [hv]
    · simp only [List.foldl_cons, hv]
      rw [ih, addScoreEntry_listFor]
      unfold scoresOf
      rw [List.filterMap_cons]
      simp only [hv]
      by_cases hp : pq.1 = pid
      · rw [if_pos (hp.symm), if_pos hp]
        simp
      · rw [if_neg (fun hh => hp hh.symm), if_neg hp]

/-- Every value list stored in the score dict is nonempty. -/
theorem stage1ScoresDict_values_ne_nil (results : List RankEntry) :
    ∀ e ∈ stage1ScoresDict results, e.2 ≠ [] := by
  unfold stage1ScoresDict
  suffices h : ∀ (results : List RankEntry) (d : List (String × List ℚ)),
      (∀ e ∈ d, e.2 ≠ []) →
      ∀ e ∈ results.foldl
        (fun d r =>
          match validEntry r with
          | some pq => addScoreEntry d pq.1 pq.2
          | none => d) d, e.2 ≠ [] by
    exact h results [] (by simp)
  intro results
  induction results with
  | nil => intro d hd; simpa using hd
  | cons r rest ih =>
    intro d hd
    rcases hv : validEntry r with - | pq
    · simp only [List.foldl_cons, hv]
      exact ih d hd
    · simp only [List.foldl_cons, hv]
      refine ih _ ?_
      intro e he
      unfold addScoreEntry at he
      by_cases hany : d.any (fun e => e.1 == pq.1)
      · rw [if_pos hany] at he
        rcases List.mem_map.mp he with ⟨e', he', heq⟩
        by_cases hk : e'.1 = pq.1
        · rw [if_pos hk] at heq
          rw [← heq]
          simp
        · rw [if_neg hk] at heq
          rw [← heq]
          exact hd e' he'
      · rw [if_neg hany] at he
        rcases List.mem_append.mp he with he | he
        · exact hd e he
        · rcases List.mem_singleton.mp he with rfl
          simp

/-- On a dict all of whose value lists are nonempty, looking a key up in
the `{pid: max(scores)}` comprehension is the `max?` of the per-key view. -/
theorem find?_maxComprehension (pid : String) :
    ∀ (d : List (String × List ℚ)), (∀ e ∈ d, e.2 ≠ []) →
      (((d.filterMap fun e =>
          match e.2.max? with
          | some m => some (e.1, m)
          | none => none).find? (fun e => e.1 == pid)).map (·.2))
        = (listFor d pid).max? := by
  intro d
  induction d with
  | nil => simp [listFor]
  | cons e rest ih =>
    intro hne
    rcases hmax : e.2.max? with - | m
    · exact absurd (List.max?_eq_none_iff.mp hmax) (hne e (List.mem_cons_self _ _))
    · rw [List.filterMap_cons]
      simp only [hmax]
      unfold listFor
      by_cases hkey : e.1 = pid
      · rw [List.find?_cons_of_pos _ (by simpa using hkey),
          List.find?_cons_of_pos _ (by simpa using hkey)]
        simp [hmax]
      · rw [List.find?_cons_of_neg _ (by simpa using hkey),
          List.find?_cons_of_neg _ (by simpa using hkey)]
        exact ih (fun e' he' => hne e' (List.mem_cons_of_mem _ he'))

/-- `final_scores.get(pid)` is exactly the max of the scores collected for
`pid` across all windows (`none` when no window contributed a valid
score). -/
theorem finalScoresGet_eq (results : List RankEntry) (pid : String) :
    finalScoresGet results pid = (scoresOf results pid).max? := by
  unfold finalScoresGet finalScores
  rw [find?_maxComprehension pid (stage1ScoresDict results)
    (stage1ScoresDict_values_ne_nil results)]
  unfold stage1ScoresDict
  rw [stage1_collect_listFor]
  simp [listFor]

/-- C5 -- **Idempotent max-aggregation.**  For every item `pid` whose valid
collected scores across the windows it appeared in are `s1..sn` (the list
`scoresOf results pid`, in arrival order), the aggregated Stage-1 score
`final_scores.get(pid)` equals `max(s1..sn)` (`none` when no window
contributed a valid score); and the aggregate is invariant under any
permutation of the collected per-window results, i.e. independent of the
order in which `as_completed` yields the window futures (max-reduce is
commutative, associative and idempotent). -/
theorem stage1_aggregation_max (results results' : List RankEntry) (pid : String)
    (hperm : results.Perm results') :
    finalScoresGet results pid = (scoresOf results pid).max? ∧
    finalScoresGet results pid = finalScoresGet results' pid := by
  have h1 := finalScoresGet_eq results pid
  have h2 := finalScoresGet_eq results' pid
  have hp : (scoresOf results pid).Perm (scoresOf results' pid) := hperm.filterMap _
  exact ⟨h1, by rw [h1, h2]; exact max?_perm_eq hp⟩

/-- Closed witness for `stage1_aggregation_max`: item `"a"` scored 4 and 2
in two windows, item `"b"` scored 1; collecting the three entries in a
different order leaves the aggregates (4 for `"a"`) unchanged. -/
theorem stage1_aggregation_max_witness :
    ([⟨some (.str "a"), some (.num 4)⟩, ⟨some (.str "a"), some (.num 2)⟩,
        ⟨some (.str "b"), some (.num 1)⟩] : List RankEntry).Perm
      [⟨some (.str "b"), some (.num 1)⟩, ⟨some (.str "a"), some (.num 4)⟩,
        ⟨some (.str "a"), some (.num 2)⟩] ∧
    finalScoresGet [⟨some (.str "a"), some (.num 4)⟩, ⟨some (.str "a"), some (.num 2)⟩,
        ⟨some (.str "b"), some (.num 1)⟩] "a"
      = (scoresOf [⟨some (.str "a"), some (.num 4)⟩, ⟨some (.str "a"), some (.num 2)⟩,
          ⟨some (.str "b"), some (.num 1)⟩] "a").max? ∧
    finalScoresGet [⟨some (.str "a"), some (.num 4)⟩, ⟨some (.str "a"), some (.num 2)⟩,
        ⟨some (.str "b"), some (.num 1)⟩] "a"
      = finalScoresGet [⟨some (.str "b"), some (.num 1)⟩,
          ⟨some (.str "a"), some (.num 4)⟩, ⟨some (.str "a"), some (.num 2)⟩] "a" := by
  have hperm : ([⟨some (.str "a"), some (.num 4)⟩, ⟨some (.str "a"), some (.num 2)⟩,
        ⟨some (.str "b"), some (.num 1)⟩] : List RankEntry).Perm
      [⟨some (.str "b"), some (.num 1)⟩, ⟨some (.str "a"), some (.num 4)⟩,
        ⟨some (.str "a"), some (.num 2)⟩] := by
    decide
  have h := stage1_aggregation_max _ _ "a" hperm
  exact ⟨hperm, h.1, h.2⟩

/-! ## Stage-1 score attachment and the final stable sort -/

/-- Python dict lookup `d.get(k)` on a paper dict (keys are unique in a
dict, so the first match is the match); `none` when the key is absent. -/
def dictGet : List (String × PyVal) → String → Option PyVal
  | [], _ => none
  | e :: rest, k => if e.1 = k then some e.2 else dictGet rest k

/-- Python dict assignment `d[k] = v`: overwrite the value at the existing
key (keys keep their position) or append a new key. -/
def dictSet : List (String × PyVal) → String → PyVal → List (String × PyVal)
  | [], k, v => [(k, v)]
  | e :: rest, k, v => if e.1 = k then (k, v) :: rest else e :: dictSet rest k v

/-- The body of the attachment loop for one paper dict:

```python
paper_id = paper_dict.get('paper_id')
score = final_scores.get(paper_id)
paper_dict['stage1_score'] = score if score is not None else 0.0
```

`final_scores` is keyed by the non-empty strings that passed the collection
guard, so `final_scores.get(x)` is `None` whenever `x` is `None` or not a
string. -/
def attachScore (results : List RankEntry) (d : List (String × PyVal)) :
    List (String × PyVal) :=
  let score : Option ℚ :=
    match dictGet d "paper_id" with
    | some (.str s) => finalScoresGet results s
    | _ => none
  dictSet d "stage1_score" (.num (score.getD 0))

/-- The sort key `lambda p: p.get('stage1_score', 0.0)`.  After attachment
every paper has a numeric `stage1_score`; the `0` fallback mirrors the
Python default for an absent key. -/
def sortKey (d : List (String × PyVal)) : ℚ :=
  match dictGet d "stage1_score" with
  | some (.num q) => q
  | _ => 0

/-- The attach-and-sort tail of `_run_stage1_ranking`: attach a score to
every paper dict, then `sort(key=..., reverse=True)` -- a stable descending
sort, modelled by the stable `mergeSort` with `le a b := key b ≤ key a`. -/
def stage1Rank (papers : List (List (String × PyVal))) (results : List RankEntry) :
    List (List (String × PyVal)) :=
  (papers.map (attachScore results)).mergeSort
    (fun a b => decide (sortKey b ≤ sortKey a))

/-- `dictSet` leaves every other key's value unchanged. -/
theorem dictGet_dictSet_ne (k k' : String) (v : PyVal) (h : k' ≠ k) :
    ∀ (d : List (String × PyVal)), dictGet (dictSet d k v) k' = dictGet d k' := by
  intro d
  induction d with
  | nil =>
    simp only [dictSet, dictGet]
    rw [if_neg (fun hh => h hh.symm)]
  | cons e rest ih =>
    simp only [dictSet]
    by_cases hk : e.1 = k
    · rw [if_pos hk]
      simp only [dictGet]
      rw [if_neg (fun hh => h hh.symm), if_neg (fun hh => h (hk ▸ hh).symm)]
    · rw [if_neg hk]
      simp only [dictGet]
      by_cases hk' : e.1 = k'
      · rw [if_pos hk', if_pos hk']
      · rw [if_neg hk', if_neg hk']
        exact ih

/-- `dictSet` stores the value at the key. -/
theorem dictGet_dictSet_self (k : String) (v : PyVal) :
    ∀ (d : List (String × PyVal)), dictGet (dictSet d k v) k = some v := by
  intro d
  induction d with
  | nil => simp [dictSet, dictGet]
  | cons e rest ih =>
    simp only [dictSet]
    by_cases hk : e.1 = k
    · rw [if_pos hk]
      simp [dictGet]
    · rw [if_neg hk]
      simp only [dictGet]
      rw [if_neg hk]
      exact ih

/-- C10 -- **Stage-1 ranking is a frame-preserving permutation.**  The
attach-and-sort tail of `_run_stage1_ranking` returns a permutation of the
input list with each paper dict augmented in place: every input item
appears exactly once in the output (none dropped or duplicated -- the sort
is a permutation of the attached list, whatever the ranking entries were,
malformed or missing ones included); the attachment writes exactly the
`stage1_score` key, whose value is always numeric -- the aggregated
`final_scores` value for the paper's id when one exists, `0.0` otherwise --
and leaves the value of every other key unchanged. -/
theorem stage1Rank_frame (papers : List (List (String × PyVal)))
    (results : List RankEntry) :
    (stage1Rank papers results).Perm (papers.map (attachScore results)) ∧
    (stage1Rank papers results).length = papers.length ∧
    (∀ (d : List (String × PyVal)) (k : String), k ≠ "stage1_score" →
      dictGet (attachScore results d) k = dictGet d k) ∧
    (∀ (d : List (String × PyVal)),
      dictGet (attachScore results d) "stage1_score"
        = some (.num ((match dictGet d "paper_id" with
            | some (.str s) => finalScoresGet results s
            | _ => none).getD 0))) := by
  refine ⟨List.mergeSort_perm _ _, ?_, ?_, ?_⟩
  · rw [stage1Rank, (List.mergeSort_perm _ _).length_eq, List.length_map]
  · intro d k hk
    unfold attachScore
    exact dictGet_dictSet_ne _ _ _ hk d
  · intro d
    unfold attachScore
    exact dictGet_dictSet_self _ _ d

/-- Closed witness for `stage1Rank_frame`: two papers, one scored 4, one
unscored; the `title` field (≠ `stage1_score`) is untouched by
attachment. -/
theorem stage1Rank_frame_witness :
    (stage1Rank [[("paper_id", .str "a"), ("title", .str "T")], [("paper_id", .str "b")]]
        [⟨some (.str "a"), some (.num 4)⟩]).Perm
      ([[("paper_id", .str "a"), ("title", .str "T")], [("paper_id", .str "b")]].map
        (attachScore [⟨some (.str "a"), some (.num 4)⟩])) ∧
    dictGet (attachScore [⟨some (.str "a"), some (.num 4)⟩]
        [("paper_id", .str "a"), ("title", .str "T")]) "title" = some (.str "T") := by
  have h := stage1Rank_frame
    [[("paper_id", PyVal.str "a"), ("title", PyVal.str "T")], [("paper_id", PyVal.str "b")]]
    [⟨some (.str "a"), some (.num 4)⟩]
  refine ⟨h.1, ?_⟩
  rw [h.2.2.1 [("paper_id", PyVal.str "a"), ("title", PyVal.str "T")] "title" (by decide)]
  rfl

/-! ## Stage-2 promotion filter

Embedding of the promotion head of `_run_stage2_deep_analysis`
(`src/ai/batch_coordinator.py` lines 119-132):

```python
promoted_paper_ids = {p['paper_id'] for p in papers_with_scores
                      if p.get('stage1_score', 0.0) >= promotion_threshold}
all_papers_map = {p_dict['paper_id']: (p_res, p_dict) for p_res, p_dict in all_papers_tuples}
promoted_papers_tuples = [all_papers_map[pid] for pid in promoted_paper_ids if pid in all_papers_map]
promoted_papers_tuples.sort(key=lambda x: x[1]['stage1_score'], reverse=True)
top_papers_to_analyze_tuples = promoted_papers_tuples[:max_to_analyze]
```

In the pipeline, `papers_with_scores` and `all_papers_tuples` hold the very
same paper dicts, so a single `(paper_id, stage1_score)` list models both.
`promoted_paper_ids` is a Python `set`; its iteration order is not a
function of its contents (string hashing is salted per process), so the
enumeration order is an explicit parameter `enum`: any duplicate-free
enumeration of the set is a possible behaviour of the source. -/

/-- `all_papers_map[pid]`: a dict comprehension keeps the *last* tuple for a
duplicated key. -/
def lastLookup (papers : List (String × ℚ)) (pid : String) : Option (String × ℚ) :=
  papers.reverse.find? (fun e => e.1 == pid)

/-- The contents of the promoted-id set, as the duplicate-free list of ids
of papers whose attached score reaches the threshold. -/
def promotedIds (papers : List (String × ℚ)) (thr : ℚ) : List String :=
  ((papers.filter (fun e => decide (thr ≤ e.2))).map (fun e => e.1)).dedup

/-- The promotion filter, parameterized by the set-iteration order `enum`:
look each promoted id up in the map, sort the found tuples by score
descending (Python's `sort` is stable, so ties keep the `enum` order), and
truncate to `max_to_analyze`. -/
def promote (papers : List (String × ℚ)) (maxToAnalyze : Nat) (enum : List String) :
    List (String × ℚ) :=
  ((enum.filterMap (fun pid => lastLookup papers pid)).mergeSort
    (fun a b => decide (b.2 ≤ a.2))).take maxToAnalyze

/-- C9 counterexample -- the promotion filter is **not** a function of the
scored list, threshold and limit alone, and does not preserve the
pre-promotion rank order among equal scores: with scored list
`[("a", 5), ("b", 5)]` (rank order `a` before `b`), threshold 4 and limit
1, both `["a", "b"]` and `["b", "a"]` are duplicate-free enumerations of
the promoted-id set `{a, b}`, yet they yield the different results
`[("a", 5)]` and `[("b", 5)]`: which tied item survives the truncation
depends on the set-iteration order. -/
theorem promote_order_counterexample :
    (["a", "b"] : List String).Perm (promotedIds [("a", 5), ("b", 5)] 4) ∧
    (["b", "a"] : List String).Perm (promotedIds [("a", 5), ("b", 5)] 4) ∧
    promote [("a", 5), ("b", 5)] 1 ["a", "b"] = [("a", 5)] ∧
    promote [("a", 5), ("b", 5)] 1 ["b", "a"] = [("b", 5)] ∧
    promote [("a", 5), ("b", 5)] 1 ["a", "b"]
      ≠ promote [("a", 5), ("b", 5)] 1 ["b", "a"] := by
  have e1 : List.filterMap (fun pid => lastLookup [("a", 5), ("b", 5)] pid) ["a", "b"]
      = [("a", 5), ("b", 5)] := by decide
  have e2 : List.filterMap (fun pid => lastLookup [("a", 5), ("b", 5)] pid) ["b", "a"]
      = [("b", 5), ("a", 5)] := by decide
  have h1 : promote [("a", 5), ("b", 5)] 1 ["a", "b"] = [("a", 5)] := by
    unfold promote
    rw [e1, List.mergeSort_of_sorted (by decide)]
    rfl
  have h2 : promote [("a", 5), ("b", 5)] 1 ["b", "a"] = [("b", 5)] := by
    unfold promote
    rw [e2, List.mergeSort_of_sorted (by decide)]
    rfl
  refine ⟨by decide, by decide, h1, h2, ?_⟩
  rw [h1, h2]
  decide

/-- C9 (amended) -- the promotion filter is deterministic only once the
set-iteration order of the promoted-id set is fixed (an implementation
detail of the Python `set`, not a function of the scored list): for every
duplicate-free enumeration `enum` of the promoted-id set (over a scored
list with distinct paper ids), the result contains at most `max_promote`
items, every returned item is an input item whose score is ≥ the
threshold, and the result is sorted by score in descending order -- with
ties ordered by the enumeration order, not by the pre-promotion rank
order. -/
theorem promote_spec (papers : List (String × ℚ)) (thr : ℚ) (maxN : Nat)
    (enum : List String)
    (hnd : (papers.map Prod.fst).Nodup)
    (henum : enum.Perm (promotedIds papers thr)) :
    (promote papers maxN enum).length ≤ maxN ∧
    (∀ e ∈ promote papers maxN enum, e ∈ papers ∧ thr ≤ e.2) ∧
    (promote papers maxN enum).Pairwise (fun a b => b.2 ≤ a.2) := by
  refine ⟨?_, ?_, ?_⟩
  · exact List.length_take_le _ _
  · intro e he
    have he1 : e ∈ (enum.filterMap (fun pid => lastLookup papers pid)).mergeSort
        (fun a b => decide (b.2 ≤ a.2)) := List.mem_of_mem_take he
    have he2 : e ∈ enum.filterMap (fun pid => lastLookup papers pid) :=
      (List.mergeSort_perm _ _).mem_iff.mp he1
    rcases List.mem_filterMap.mp he2 with ⟨pid, hpid, hlk⟩
    have hmem : e ∈ papers := by
      have := List.mem_of_find?_eq_some hlk
      exact List.mem_reverse.mp this
    have hkey : e.1 = pid := by simpa using List.find?_some hlk
    refine ⟨hmem, ?_⟩
    -- `pid` is a promoted id, so some входной entry with this key reaches
    -- the threshold; with distinct keys that entry is `e` itself
    have hpid' : pid ∈ promotedIds papers thr := henum.mem_iff.mp hpid
    unfold promotedIds at hpid'
    rcases List.mem_map.mp (List.mem_dedup.mp hpid') with ⟨e', he', hkey'⟩
    have he'mem : e' ∈ papers := List.mem_of_mem_filter he'
    have hthr : thr ≤ e'.2 := by simpa using List.of_mem_filter he'
    have : e' = e := List.inj_on_of_nodup_map hnd he'mem hmem (by rw [hkey', hkey])
    rw [← this]
    exact hthr
  · have hs : ((enum.filterMap (fun pid => lastLookup papers pid)).mergeSort
        (fun a b => decide (b.2 ≤ a.2))).Pairwise
        (fun a b => (decide (b.2 ≤ a.2)) = true) :=
      List.sorted_mergeSort
        (fun a b c hab hbc => by
          simp only [decide_eq_true_eq] at *
          exact le_trans hbc hab)
        (fun a b => by
          simp only [Bool.or_eq_true, decide_eq_true_eq]
          exact le_total b.2 a.2)
        _
    have hs2 : (promote papers maxN enum).Pairwise
        (fun a b => (decide (b.2 ≤ a.2)) = true) :=
      hs.sublist (List.take_sublist _ _)
    exact hs2.imp (fun h => by simpa using h)

/-- Closed witness for `promote_spec`: scored list `[("a",5),("b",3)]`,
threshold 4, limit 20, enumeration `["a"]`. -/
theorem promote_spec_witness :
    ((([("a", 5), ("b", 3)] : List (String × ℚ)).map Prod.fst).Nodup ∧
      (["a"] : List String).Perm (promotedIds [("a", 5), ("b", 3)] 4)) ∧
    ((promote [("a", 5), ("b", 3)] 20 ["a"]).length ≤ 20 ∧
      (∀ e ∈ promote [("a", 5), ("b", 3)] 20 ["a"], e ∈ [("a", 5), ("b", 3)] ∧ 4 ≤ e.2) ∧
      (promote [("a", 5), ("b", 3)] 20 ["a"]).Pairwise (fun a b => b.2 ≤ a.2)) :=
  ⟨⟨by decide, by decide⟩,
    promote_spec [("a", 5), ("b", 3)] 4 20 ["a"] (by decide) (by decide)⟩

/-! ## Batch-response de-multiplexing

Embedding of `BatchCoordinator._parse_batch_analysis`
(`src/ai/batch_coordinator.py` lines 212-241):

```python
paper_ids = [p['paper_id'] for p in papers_in_batch]
results = {}
if not batch_text or not paper_ids:
    return results
split_pattern = r'Paper ID\s*:\s*(' + '|'.join(re.escape(pid) for pid in paper_ids) + ')'
parts = re.split(split_pattern, batch_text)
if len(parts) < 3:
    return {}
for i in range(1, len(parts), 2):
    paper_id = parts[i]
    content_with_header = parts[i+1]
    content_parts = re.split(r'---\s*\n', content_with_header, maxsplit=1)
    raw_content = content_parts[-1].strip()
    html_analysis = PromptManager.format_analysis_for_html(raw_content)
    results[paper_id] = {'raw': raw_content, 'html': html_analysis}
return results
```

The regular expressions are modelled directly over `List Char`:
`re.split` with one capturing group scans left to right for non-overlapping
leftmost matches; a match of `Paper ID\s*:\s*(pid1|pid2|...)` is the
literal `Paper ID`, a greedy whitespace run, `:`, a greedy whitespace run
with backtracking, and the first alternative (in list order) that matches.
`parts` has the shape `pre, id1, txt1, id2, txt2, ...`, modelled as the
pair of `pre` and the `(id, txt)` list, so `len(parts) < 3` is exactly
"no match".  The ids are escaped (`re.escape`), i.e. literals.  The stored
value is the raw analysis text; the `html` entry of the source is
`PromptManager.format_analysis_for_html(raw)`, a pure function of it that
adds no information about which entries exist. -/

/-- Python's `\s` over the ASCII range: space, `\t`, `\n`, `\r`, vertical
tab (11) and form feed (12). -/
def isPySpace (c : Char) : Bool :=
  c = ' ' || c = '\t' || c = '\n' || c = '\r' || c = Char.ofNat 11 || c = Char.ofNat 12

/-- Match a literal at the head of `s`; on success return the remainder. -/
def matchLiteral (lit : List Char) (s : List Char) : Option (List Char) :=
  if lit.isPrefixOf s then some (s.drop lit.length) else none

/-- The alternation `(pid1|pid2|...)` at the head of `s`: Python tries the
alternatives left to right and commits to the first that matches. -/
def tryAlternatives (pids : List String) (s : List Char) : Option (String × List Char) :=
  match pids with
  | [] => none
  | pid :: rest =>
    match matchLiteral pid.toList s with
    | some s' => some (pid, s')
    | none => tryAlternatives rest s

/-- Greedy `\s*` directly before the alternation, with backtracking: try
consuming `j` whitespace characters and the alternation there, for
`j = k, k-1, ..., 0`, largest `j` first. -/
def tryWsAlt (pids : List String) (s : List Char) : Nat → Option (String × List Char)
  | 0 => tryAlternatives pids s
  | j + 1 =>
    match tryAlternatives pids (s.drop (j + 1)) with
    | some r => some r
    | none => tryWsAlt pids s j

/-- Match the delimiter pattern `Paper ID\s*:\s*(pid1|pid2|...)` at the head
of `s`; on success return the captured id and the remainder.  (`:` is not
whitespace, so the first greedy `\s*` admits only the maximal run.) -/
def matchDelim (pids : List String) (s : List Char) : Option (String × List Char) :=
  match matchLiteral "Paper ID".toList s with
  | none => none
  | some s1 =>
    match s1.dropWhile isPySpace with
    | ':' :: s3 => tryWsAlt pids s3 (s3.takeWhile isPySpace).length
    | _ => none

/-- `re.split(split_pattern, batch_text)`: scan left to right for
non-overlapping leftmost matches.  Returns the text before the first match
and the alternating `(captured id, following text)` pairs.  `fuel` bounds
the scan; the caller passes the text length, and every match consumes at
least the literal `Paper ID`, so the fuel never runs out on the real
argument. -/
def splitGo (pids : List String) : Nat → List Char → List Char →
    List Char × List (String × List Char)
  | 0, acc, _ => (acc.reverse, [])
  | _ + 1, acc, [] => (acc.reverse, [])
  | fuel + 1, acc, c :: rest =>
    match matchDelim pids (c :: rest) with
    | some (pid, after) =>
      let t := splitGo pids fuel [] after
      (acc.reverse, (pid, t.1) :: t.2)
    | none => splitGo pids fuel (c :: acc) rest

/-- The ids captured by the split: the item delimiters actually present in
(found in) the response. -/
def capturedIds (batchText : List Char) (paperIds : List String) : List String :=
  (splitGo paperIds batchText.length [] batchText).2.map Prod.fst

/-- Greedy `\s*\n` after the literal `---`, with backtracking: `j`
whitespace characters followed by a newline, largest `j` first. -/
def tryNl (s : List Char) : Nat → Option (List Char)
  | 0 =>
    match s with
    | '\n' :: rest => some rest
    | _ => none
  | j + 1 =>
    match s.drop (j + 1) with
    | '\n' :: rest => some rest
    | _ => tryNl s j

/-- Match `---\s*\n` at the head of `s`; on success return the remainder. -/
def matchDashes (s : List Char) : Option (List Char) :=
  match matchLiteral "---".toList s with
  | none => none
  | some s1 => tryNl s1 (s1.takeWhile isPySpace).length

/-- The remainder after the leftmost match of `---\s*\n`, scanning with
fuel as in `splitGo`; `none` when the pattern does not occur
(`re.split(..., maxsplit=1)` then returns the whole string, and `[-1]` is
the input itself). -/
def splitDashesOnce : Nat → List Char → Option (List Char)
  | 0, _ => none
  | _ + 1, [] => none
  | fuel + 1, c :: rest =>
    match matchDashes (c :: rest) with
    | some after => some after
    | none => splitDashesOnce fuel rest

/-- Python `str.strip()`. -/
def pyStrip (s : List Char) : List Char :=
  ((s.dropWhile isPySpace).reverse.dropWhile isPySpace).reverse

/-- `content_parts = re.split(r'---\s*\n', content, maxsplit=1)` followed by
`content_parts[-1].strip()`. -/
def rawContent (content : List Char) : List Char :=
  pyStrip
    (match splitDashesOnce content.length content with
      | some after => after
      | none => content)

/-- `results[paper_id] = ...`: dict assignment, overwriting the value at an
existing key (keys keep their positions) or appending a new key. -/
def resultsInsert (d : List (String × List Char)) (k : String) (v : List Char) :
    List (String × List Char) :=
  if d.any (fun e => e.1 == k) then
    d.map (fun e => if e.1 = k then (k, v) else e)
  else d ++ [(k, v)]

/-- The result-building loop `for i in range(1, len(parts), 2): ...` over
the `(id, text)` pairs of the split. -/
def buildResults (pairs : List (String × List Char)) (d : List (String × List Char)) :
    List (String × List Char) :=
  pairs.foldl (fun d pr => resultsInsert d pr.1 (rawContent pr.2)) d

/-- `_parse_batch_analysis(batch_text, papers_in_batch)`, with `paperIds`
standing for `[p['paper_id'] for p in papers_in_batch]`.  `len(parts) < 3`
is exactly "the split found no delimiter". -/
def parseBatchAnalysis (batchText : List Char) (paperIds : List String) :
    List (String × List Char) :=
  if batchText.isEmpty || paperIds.isEmpty then []
  else if (splitGo paperIds batchText.length [] batchText).2.isEmpty then []
  else buildResults (splitGo paperIds batchText.length [] batchText).2 []

/-- `results.get(pid)` on the parse result. -/
def resultsGet (d : List (String × List Char)) (k : String) : Option (List Char) :=
  (d.find? (fun e => e.1 == k)).map (fun e => e.2)

/-- A successful alternation capture is one of the alternatives. -/
theorem tryAlternatives_mem :
    ∀ (pids : List String) (s : List Char) (pid : String) (after : List Char),
      tryAlternatives pids s = some (pid, after) → pid ∈ pids := by
  intro pids
  induction pids with
  | nil =>
    intro s pid after h
    cases h
  | cons p rest ih =>
    intro s pid after h
    rw [tryAlternatives] at h
    split at h
    · cases h
      exact List.mem_cons_self _ _
    · exact List.mem_cons_of_mem _ (ih s pid after h)

/-- A capture found through whitespace backtracking is one of the
alternatives. -/
theorem tryWsAlt_mem (pids : List String) (s : List Char) :
    ∀ (j : Nat) (pid : String) (after : List Char),
      tryWsAlt pids s j = some (pid, after) → pid ∈ pids := by
  intro j
  induction j with
  | zero =>
    intro pid after h
    exact tryAlternatives_mem pids s pid after h
  | succ j ih =>
    intro pid after h
    rw [tryWsAlt] at h
    split at h
    · next r heq =>
      cases h
      exact tryAlternatives_mem _ _ _ _ heq
    · exact ih pid after h

/-- The id captured by a delimiter match is one of the submitted ids. -/
theorem matchDelim_mem (pids : List String) (s : List Char) (pid : String)
    (after : List Char) (h : matchDelim pids s = some (pid, after)) : pid ∈ pids := by
  rw [matchDelim] at h
  split at h
  · cases h
  · split at h
    · exact tryWsAlt_mem _ _ _ _ _ h
    · cases h

/-- Every id captured by the split is one of the submitted ids. -/
theorem splitGo_ids_mem (pids : List String) :
    ∀ (fuel : Nat) (acc s : List Char) (pr : String × List Char),
      pr ∈ (splitGo pids fuel acc s).2 → pr.1 ∈ pids := by
  intro fuel
  induction fuel with
  | zero =>
    intro acc s pr h
    simp [splitGo] at h
  | succ fuel ih =>
    intro acc s pr h
    rcases s with - | ⟨c, rest⟩
    · simp [splitGo] at h
    · rw [splitGo] at h
      split at h
      · next pid after heq =>
        simp only [List.mem_cons] at h
        rcases h with h | h
        · rw [h]
          exact matchDelim_mem pids (c :: rest) pid after heq
        · exact ih [] after pr h
      · exact ih (c :: acc) rest pr h

/-- The keys of `resultsInsert d k v` are the keys of `d` plus possibly
`k`. -/
theorem resultsInsert_keys (d : List (String × List Char)) (k : String) (v : List Char) :
    ∀ x ∈ (resultsInsert d k v).map Prod.fst, x ∈ d.map Prod.fst ∨ x = k := by
  intro x hx
  unfold resultsInsert at hx
  by_cases hany : d.any (fun e => e.1 == k)
  · rw [if_pos hany] at hx
    rw [List.map_map] at hx
    rcases List.mem_map.mp hx with ⟨e, he, hfe⟩
    by_cases hk : e.1 = k
    · right
      rw [← hfe]
      simp [hk]
    · left
      refine List.mem_map.mpr ⟨e, he, ?_⟩
      rw [← hfe]
      simp [hk]
  · rw [if_neg hany] at hx
    rw [List.map_append] at hx
    rcases List.mem_append.mp hx with hx | hx
    · exact Or.inl hx
    · right
      simpa using hx

/-- `resultsInsert` preserves key uniqueness. -/
theorem resultsInsert_nodup (d : List (String × List Char)) (k : String) (v : List Char)
    (h : (d.map Prod.fst).Nodup) : ((resultsInsert d k v).map Prod.fst).Nodup := by
  unfold resultsInsert
  by_cases hany : d.any (fun e => e.1 == k)
  · rw [if_pos hany]
    have hkeys : (d.map (fun e => if e.1 = k then (k, v) else e)).map Prod.fst
        = d.map Prod.fst := by
      rw [List.map_map]
      refine List.map_congr_left ?_
      intro e he
      by_cases hk : e.1 = k
      · simp [hk]
      · simp [hk]
    rw [hkeys]
    exact h
  · rw [if_neg hany, List.map_append]
    have hk : k ∉ d.map Prod.fst := by
      intro hmem
      rcases List.mem_map.mp hmem with ⟨e, he, hfe⟩
      exact hany (List.any_eq_true.mpr ⟨e, he, by simpa using hfe⟩)
    simp only [List.map_cons, List.map_nil]
    rw [List.nodup_append]
    refine ⟨h, List.nodup_singleton _, ?_⟩
    intro x hx hy
    rcases List.mem_singleton.mp hy with rfl
    exact hk hx

/-- Keys of the built results dict come from the starting dict or the
captured pairs. -/
theorem buildResults_keys (pairs : List (String × List Char)) :
    ∀ (d : List (String × List Char)) (x : String),
      x ∈ (buildResults pairs d).map Prod.fst →
      x ∈ d.map Prod.fst ∨ x ∈ pairs.map Prod.fst := by
  induction pairs with
  | nil =>
    intro d x hx
    exact Or.inl hx
  | cons pr rest ih =>
    intro d x hx
    rw [buildResults, List.foldl_cons] at hx
    rcases ih _ x hx with hx | hx
    · rcases resultsInsert_keys d pr.1 (rawContent pr.2) x hx with hx | hx
      · exact Or.inl hx
      · right
        rw [hx]
        exact List.mem_map.mpr ⟨pr, List.mem_cons_self _ _, rfl⟩
    · right
      rw [List.map_cons]
      exact List.mem_cons_of_mem _ hx

/-- The built results dict has unique keys. -/
theorem buildResults_nodup (pairs : List (String × List Char)) :
    ∀ (d : List (String × List Char)), (d.map Prod.fst).Nodup →
      ((buildResults pairs d).map Prod.fst).Nodup := by
  induction pairs with
  | nil =>
    intro d h
    exact h
  | cons pr rest ih =>
    intro d h
    rw [buildResults, List.foldl_cons]
    exact ih _ (resultsInsert_nodup d pr.1 (rawContent pr.2) h)

/-- The five submitted item ids of the de-multiplexing scenario. -/
def scenarioIds : List String :=
  ["2401.00001", "2401.00002", "2401.00003", "2401.00004", "2401.00005"]

/-- A batch response carrying sections for items 1, 2, 4 and 5 only: item
3's delimiter (and section) is absent. -/
def scenarioText : List Char :=
  ("Preamble\nPaper ID: 2401.00001\nTitle: T1\n---\nAnalysis one\n"
    ++ "Paper ID: 2401.00002\nTitle: T2\n---\nAnalysis two\n"
    ++ "Paper ID: 2401.00004\nTitle: T4\n---\nAnalysis four\n"
    ++ "Paper ID: 2401.00005\nTitle: T5\n---\nAnalysis five").toList

set_option maxRecDepth 10000 in
/-- C1 -- **De-multiplexing safety.**  For every batch text and submitted
id list, `_parse_batch_analysis` (a total function -- it never raises)
produces a dict with at most one entry per submitted item and never more
entries than items; every key is an id whose delimiter was captured in the
response, so an item whose delimiter is absent gets no entry; and on the
concrete 5-item scenario whose response lacks item 3's delimiter it returns
exactly 4 entries, item 3 absent, each present item's entry being exactly
its own analysis text (no delimiter loss corrupts or merges a neighboring
item's entry). -/
theorem parse_batch_demux_safe (batchText : List Char) (paperIds : List String)
    (pid : String) (habsent : pid ∉ capturedIds batchText paperIds) :
    (parseBatchAnalysis batchText paperIds).length ≤ paperIds.length ∧
    ((parseBatchAnalysis batchText paperIds).map Prod.fst).Nodup ∧
    (∀ k ∈ (parseBatchAnalysis batchText paperIds).map Prod.fst,
      k ∈ capturedIds batchText paperIds ∧ k ∈ paperIds) ∧
    resultsGet (parseBatchAnalysis batchText paperIds) pid = none ∧
    (parseBatchAnalysis scenarioText scenarioIds =
        [("2401.00001", "Analysis one".toList), ("2401.00002", "Analysis two".toList),
          ("2401.00004", "Analysis four".toList), ("2401.00005", "Analysis five".toList)] ∧
      (parseBatchAnalysis scenarioText scenarioIds).length = 4 ∧
      "2401.00003" ∉ capturedIds scenarioText scenarioIds ∧
      resultsGet (parseBatchAnalysis scenarioText scenarioIds) "2401.00003" = none) := by
  have hkeys : ∀ k ∈ (parseBatchAnalysis batchText paperIds).map Prod.fst,
      k ∈ capturedIds batchText paperIds ∧ k ∈ paperIds := by
    intro k hk
    unfold parseBatchAnalysis at hk
    split at hk
    · simp at hk
    · split at hk
      · simp at hk
      · rcases buildResults_keys _ _ _ hk with hk | hk
        · simp at hk
        · refine ⟨hk, ?_⟩
          rcases List.mem_map.mp hk with ⟨pr, hpr, hfe⟩
          rw [← hfe]
          exact splitGo_ids_mem paperIds _ _ _ pr hpr
  have hnodup : ((parseBatchAnalysis batchText paperIds).map Prod.fst).Nodup := by
    unfold parseBatchAnalysis
    split
    · simp
    · split
      · simp
      · exact buildResults_nodup _ _ (by simp)
  refine ⟨?_, hnodup, hkeys, ?_, ?_⟩
  · have hsub : (parseBatchAnalysis batchText paperIds).map Prod.fst ⊆ paperIds :=
      fun k hk => (hkeys k hk).2
    have hsp : List.Subperm ((parseBatchAnalysis batchText paperIds).map Prod.fst) paperIds :=
      List.subperm_of_subset hnodup hsub
    have := hsp.length_le
    rwa [List.length_map] at this
  · unfold resultsGet
    have hnone : (parseBatchAnalysis batchText paperIds).find? (fun e => e.1 == pid)
        = none := by
      refine List.find?_eq_none.mpr ?_
      intro e he hbeq
      have hkey : e.1 ∈ (parseBatchAnalysis batchText paperIds).map Prod.fst :=
        List.mem_map.mpr ⟨e, he, rfl⟩
      have := (hkeys e.1 hkey).1
      rw [show e.1 = pid by simpa using hbeq] at this
      exact habsent this
    rw [hnone]
    rfl
  · refine ⟨by decide, by decide, by decide, by decide⟩

set_option maxRecDepth 10000 in
/-- Closed witness for `parse_batch_demux_safe` at the concrete 5-item
scenario with `pid` the absent item 3. -/
theorem parse_batch_demux_safe_witness :
    ("2401.00003" ∉ capturedIds scenarioText scenarioIds) ∧
    (parseBatchAnalysis scenarioText scenarioIds).length ≤ scenarioIds.length ∧
    resultsGet (parseBatchAnalysis scenarioText scenarioIds) "2401.00003" = none := by
  have h := parse_batch_demux_safe scenarioText scenarioIds "2401.00003" (by decide)
  exact ⟨by decide, h.1, h.2.2.2.1⟩

end Hermes
